import Mathlib

/-!
A verification development for the polyderboard serving/streaming engine.

The Rust source under `src/api` is shallowly embedded:
* Rust `String`/`&str` values become Lean `String` (or `List Char` where the
  code works character-wise, as in the cache-key digest);
* machine integers (`u64`, `u128`, `usize`) become `Nat`, `i64` becomes `Int`
  (the values the claims exercise are far below any overflow boundary);
* `f64` arithmetic is modelled exactly over `ℚ` (the claims under study are
  about the algorithms, not about rounding of IEEE doubles), and `Instant`
  timestamps become `Nat` seconds with saturating subtraction;
* `HashMap`s become association lists whose lookup takes the most recently
  inserted binding; nondeterministic iteration order is noted where it occurs;
* fallible operations return `Option`/`Except`, and external effects
  (HTTP responses, the random nonce generator, wall-clock time, signature
  recovery) become explicit oracle parameters.
-/

namespace Polyderboard

/-! ## Shared helpers -/

/-- Embeds `strip_prefix("0x").unwrap_or(..)`: drop a leading `0x` when present. -/
def strip0x (s : String) : String :=
  match s.toList with
  | '0' :: 'x' :: r => String.mk r
  | _ => s

/-- `HashMap::insert` on an association list: the new binding shadows any
older binding of the same key. -/
def assocUpsert {α β : Type} [DecidableEq α] (k : α) (v : β) (l : List (α × β)) :
    List (α × β) :=
  (k, v) :: l.filter (fun p => p.1 ≠ k)

/-- Embeds Rust `str::to_lowercase` (ASCII-range model; addresses and dates in
this codebase are ASCII). -/
def lowerStr (s : String) : String :=
  String.mk (s.toList.map Char.toLower)

/-- Decimal digits to a natural number (`none` on empty or non-digit input);
the base of the Rust integer parsers modelled below. -/
def digitsToNat? (l : List Char) : Option Nat :=
  if l.isEmpty then none
  else l.foldlM (fun acc c =>
    if c.isDigit then some (acc * 10 + (c.toNat - 48)) else none) 0

/-- Embeds Rust `str::parse::<u64>()` / `::<u128>()` on the digit strings that
occur (a leading `+`, accepted by Rust, is not modelled; overflow is not
modelled — the values the claims exercise are far below the bounds). -/
def parseNat? (s : String) : Option Nat :=
  digitsToNat? s.toList

/-- Embeds Rust `str::parse::<i64>()`: an optional sign followed by digits. -/
def parseInt? (s : String) : Option Int :=
  match s.toList with
  | '-' :: rest => (digitsToNat? rest).map (fun n => -(n : Int))
  | '+' :: rest => (digitsToNat? rest).map (fun n => (n : Int))
  | l => (digitsToNat? l).map (fun n => (n : Int))

/-- Models Rust `str::parse::<f64>()` on an unsigned plain decimal literal
(`"123"` or `"123.456"`), returning the exact rational value. Exotic forms
accepted by the Rust parser (bare `.5`/`5.`, exponents, `inf`, `NaN`) do not
occur in the modelled data and are not modelled. -/
def parseUDecQ (s : String) : Option ℚ :=
  match s.toList.splitOn '.' with
  | [w] => (digitsToNat? w).map (fun n => (n : ℚ))
  | [w, f] =>
    match digitsToNat? w, digitsToNat? f with
    | some wn, some fn => some ((wn : ℚ) + (fn : ℚ) / ((10 : ℚ) ^ f.length))
    | _, _ => none
  | _ => none

/-- `parseUDecQ` with an optional leading minus sign. -/
def parseDecQ (s : String) : Option ℚ :=
  match s.toList with
  | '-' :: rest => (parseUDecQ (String.mk rest)).map Neg.neg
  | _ => parseUDecQ s

/-! ## markets.rs — token-id digest and market cache -/

namespace Markets

/-- Embeds the Rust constant `PREFIX_LEN = 15` from `markets.rs`
(renamed here; the value is the 15-digit significand length). -/
def keyLen : Nat := 15

/-- Embeds `id.find('e').or_else(|| id.find('E'))`: byte index of the first
lowercase `e`, or of the first `E` when no lowercase `e` occurs (token ids
are ASCII, so byte index and character index agree). -/
def findE (s : List Char) : Option Nat :=
  match s.findIdx? (fun c => c == 'e') with
  | some p => some p
  | none => s.findIdx? (fun c => c == 'E')

/-- Embeds `significant_digits` from `markets.rs`: if no exponent marker is
found return the string unchanged, otherwise take the mantissa (everything
before the marker) and remove every `.`. -/
def significant_digits (s : List Char) : List Char :=
  match findE s with
  | none => s
  | some p => (s.take p).filter (fun c => c ≠ '.')

/-- Embeds `cache_key` from `markets.rs`: the significant digits, truncated
to the first 15 characters when they are at least that long. -/
def cache_key (s : List Char) : List Char :=
  if keyLen ≤ (significant_digits s).length then (significant_digits s).take keyLen
  else significant_digits s

/-- `cache_key` lifted to `String` (the Rust function takes `&str`). -/
def cacheKeyS (s : String) : String :=
  ⟨cache_key s.toList⟩

/-- Models `str::parse::<f64>()` on a possibly scientific-notation literal,
exactly over `ℚ` (the 53-bit rounding of an actual `f64` is not modelled;
no claim under study depends on it). -/
def parseSciQ (s : String) : Option ℚ :=
  match s.toList.findIdx? (fun c => c == 'e' || c == 'E') with
  | none => parseDecQ s
  | some p =>
    match parseDecQ (String.mk (s.toList.take p)),
        parseInt? (String.mk (s.toList.drop (p + 1))) with
    | some mant, some ex => some (mant * (10 : ℚ) ^ ex)
    | _, _ => none

/-- Embeds `to_integer_id` from `markets.rs`: convert scientific notation to
an integer string (no-op for already-integer ids). `format!("{:.0}", f)` is
modelled as rounding the exact rational to the nearest integer. -/
def to_integer_id (id : String) : String :=
  if id.toList.any (fun c => c == 'e' || c == 'E') then
    match parseSciQ id with
    | some q => toString (round q)
    | none => id
  else id

/-- Embeds `MarketInfo` from `markets.rs`. -/
structure MarketInfo where
  question : String
  outcome : String
  category : String
  active : Bool
  gamma_token_id : String
  condition_id : Option String
  outcome_index : Nat
  all_token_ids : List String
  outcomes : List String
deriving DecidableEq

/-- The `MarketCache` map, keyed by significand digest. -/
abbrev Cache := List (List Char × MarketInfo)

/-- Embeds `ConditionResolutionRow` from `types.rs`. -/
structure ConditionResolutionRow where
  condition_id : String
  payout_numerators : List String
  block_number : Nat
deriving DecidableEq

/-- Embeds `ResolvedPriceRow` from `types.rs`; the Rust field is the price
formatted `{:.6}`, modelled here as the exact rational value. -/
structure ResolvedPriceRow where
  asset_id : String
  resolved_price : ℚ
  condition_id : String
  block_number : Nat
deriving DecidableEq

/-- The `condition_id → (payout_numerators, block_number)` map built in
`populate_resolved_prices` (keys normalised by stripping `0x`; a later row
with the same key overwrites an earlier one, as in `HashMap` collect). -/
def resolution_lookup (rs : List ConditionResolutionRow) (bare : String) :
    Option (List String × Nat) :=
  (rs.reverse.find? (fun r => strip0x r.condition_id == bare)).map
    (fun r => (r.payout_numerators, r.block_number))

/-- The per-asset body of the row-building loop in `populate_resolved_prices`
(`markets.rs`): cache lookup by digest, condition-id normalisation, resolution
lookup, then `resolved_price = numerators[outcome_index] / Σ numerators`,
skipping a zero (or negative) total and an out-of-range outcome index. -/
def resolved_row_for (resolutions : List ConditionResolutionRow) (cache : Cache)
    (asset : String) : Option ResolvedPriceRow :=
  match List.lookup (cache_key asset.toList) cache with
  | none => none
  | some info =>
    match info.condition_id with
    | none => none
    | some cid =>
      match resolution_lookup resolutions (strip0x cid) with
      | none => none
      | some (numerators, block) =>
        let nums := numerators.filterMap parseDecQ
        let total := nums.sum
        if total ≤ 0 ∨ nums.length ≤ info.outcome_index then none
        else some ⟨asset, (nums.getD info.outcome_index 0) / total, cid, block⟩

/-- The rows computed by `populate_resolved_prices` for the DB-observed
assets (the surrounding queries and the truncate/insert are external I/O). -/
def populate_resolved_rows (resolutions : List ConditionResolutionRow)
    (cache : Cache) (assets : List String) : List ResolvedPriceRow :=
  assets.filterMap (resolved_row_for resolutions cache)

end Markets

/-! ## alerts.rs — webhook ingress, broadcasts, convergence detection -/

namespace Alerts

/-- The raw `transaction_information` JSON object (field-by-field presence). -/
structure TxInfoRaw where
  transaction_hash : Option String
  block_number : Option Nat
  block_timestamp : Option String
deriving DecidableEq

/-- Embeds `TxInfo` from `alerts.rs` (serde defaults fill missing fields). -/
structure TxInfo where
  transaction_hash : String
  block_number : Nat
  block_timestamp : String
deriving DecidableEq

/-- serde deserialisation of `TxInfo` with `#[serde(default)]` fields. -/
def deTxInfo (r : TxInfoRaw) : TxInfo :=
  ⟨r.transaction_hash.getD "", r.block_number.getD 0, r.block_timestamp.getD ""⟩

/-- One element of the webhook `event_data` array, viewed through the JSON
accessors the handler uses. An outer `none` models a missing field; for
`oracle`/`questionId` the inner option models `as_str()` failing (the code
treats the two layers differently there). -/
structure WebhookEvent where
  transaction_information : Option TxInfoRaw
  makerAssetId : Option String
  takerAssetId : Option String
  makerAmountFilled : Option String
  takerAmountFilled : Option String
  maker : Option String
  contract_address : Option String
  conditionId : Option String
  oracle : Option (Option String)
  questionId : Option (Option String)
  payoutNumerators : Option (List String)
deriving DecidableEq

/-- Embeds `LiveTrade` from `alerts.rs` (`price` is kept as the exact
rational rather than its `{:.6}` rendering). -/
structure LiveTrade where
  tx_hash : String
  block_timestamp : String
  trader : String
  side : String
  asset_id : String
  amount : String
  price : ℚ
  usdc_amount : String
  question : String
  outcome : String
  category : String
  block_number : Nat
  cache_key : List Char
deriving DecidableEq

/-- Embeds the `Alert` enum from `alerts.rs`. -/
inductive Alert where
  | WhaleTrade (timestamp exchange side trader asset_id usdc_amount token_amount
      tx_hash : String) (block_number : Nat) (question outcome : Option String)
  | MarketResolution (timestamp condition_id oracle question_id : String)
      (payout_numerators : List String) (tx_hash : String) (block_number : Nat)
      (question winning_outcome : Option String) (outcomes : List String)
      (token_id : Option String)
  | FailedSettlement (tx_hash : String) (block_number : Nat)
      (timestamp from_address to_contract function_name gas_used : String)
deriving DecidableEq

/-- ASCII lowering of one character, for `eq_ignore_ascii_case`. -/
def asciiLower (c : Char) : Char :=
  if 'A' ≤ c ∧ c ≤ 'Z' then Char.ofNat (c.toNat + 32) else c

/-- Embeds `str::eq_ignore_ascii_case`. -/
def eqIgnoreAsciiCase (a b : String) : Bool :=
  a.toList.map asciiLower == b.toList.map asciiLower

/-- The neg-risk exchange contract address compared against in
`parse_trade_data`. -/
def negRiskExchange : String := "0xC5d563A36AE78145C45a50134d48A1215220f80a"

/-- Embeds `TradeData` from `alerts.rs`. -/
structure TradeData where
  tx_info : TxInfo
  side : String
  asset_id : String
  usdc_raw : String
  token_raw : String
  trader : String
  exchange : String
  key : List Char
  info : Option Markets.MarketInfo
deriving DecidableEq

/-- Embeds `parse_trade_data` from `alerts.rs`: classify the fill as a buy
(`makerAssetId == "0"`), a sell (`takerAssetId == "0"`), or a mint (drop),
pick the exchange by contract address, and look the asset up in the cache by
its digest. -/
def parse_trade_data (ev : WebhookEvent) (cache : Markets.Cache) :
    Option TradeData := do
  let traw ← ev.transaction_information
  let tx := deTxInfo traw
  let ma ← ev.makerAssetId
  let ta ← ev.takerAssetId
  let mam ← ev.makerAmountFilled
  let tam ← ev.takerAmountFilled
  let mk ← ev.maker
  let (side, asset_id, usdc_raw, token_raw) ←
    if ma = "0" then some ("buy", ta, mam, tam)
    else if ta = "0" then some ("sell", ma, tam, mam)
    else none
  let contract := ev.contract_address.getD ""
  let exchange := if eqIgnoreAsciiCase contract negRiskExchange then "neg_risk" else "ctf"
  let key := Markets.cache_key asset_id.toList
  let info := List.lookup key cache
  pure ⟨tx, side, asset_id, usdc_raw, token_raw, mk, exchange, key, info⟩

/-- Zero-pad a natural to six digits, as `format!("{:06}", frac)` does. -/
def pad6 (m : Nat) : String :=
  let s := toString m
  String.mk (List.replicate (6 - s.length) '0') ++ s

/-- Embeds `format_usdc` from `alerts.rs`: parse the raw 6-decimal integer
string (0 on failure) and render `whole.frac6`. -/
def format_usdc (raw : String) : String :=
  let n := (parseNat? raw).getD 0
  toString (n / 1000000) ++ "." ++ pad6 (n % 1000000)

/-- Embeds `parse_order_filled` from `alerts.rs`: a whale alert when the raw
USDC amount reaches `25_000_000_000` (u128 parse, 0 on failure). -/
def parse_order_filled (ev : WebhookEvent) (cache : Markets.Cache) :
    Option Alert :=
  (parse_trade_data ev cache).bind (fun td =>
    let usdc_raw_n := (parseNat? td.usdc_raw).getD 0
    if usdc_raw_n < 25000000000 then none
    else some (.WhaleTrade td.tx_info.block_timestamp td.exchange td.side td.trader
      td.asset_id (format_usdc td.usdc_raw) (format_usdc td.token_raw)
      td.tx_info.transaction_hash td.tx_info.block_number
      (td.info.map (·.question)) (td.info.map (·.outcome))))

/-- Embeds `build_live_trade` from `alerts.rs`. -/
def build_live_trade (ev : WebhookEvent) (cache : Markets.Cache) :
    Option LiveTrade :=
  (parse_trade_data ev cache).bind (fun td =>
    let usdc_n := (parseDecQ td.usdc_raw).getD 0
    let token_n := (parseDecQ td.token_raw).getD 0
    let price := if 0 < token_n then usdc_n / token_n else 0
    some { tx_hash := td.tx_info.transaction_hash
           block_timestamp := td.tx_info.block_timestamp
           trader := td.trader
           side := td.side
           asset_id := (td.info.map (·.gamma_token_id)).getD
             (Markets.to_integer_id td.asset_id)
           amount := format_usdc td.token_raw
           price := price
           usdc_amount := format_usdc td.usdc_raw
           question := (td.info.map (·.question)).getD ""
           outcome := (td.info.map (·.outcome)).getD ""
           category := (td.info.map (·.category)).getD ""
           block_number := td.tx_info.block_number
           cache_key := td.key })

/-- Stable insertion of one entry into a list sorted by `outcome_index`
(helper for the `sort_by_key` call in `parse_condition_resolution`). -/
def insertByIdx (x : Markets.MarketInfo) : List Markets.MarketInfo → List Markets.MarketInfo
  | [] => [x]
  | y :: ys => if y.outcome_index ≤ x.outcome_index then y :: insertByIdx x ys
    else x :: y :: ys

/-- Stable sort by `outcome_index` (`sort_by_key` is stable in Rust). -/
def sortByOutcomeIdx : List Markets.MarketInfo → List Markets.MarketInfo
  | [] => []
  | x :: xs => insertByIdx x (sortByOutcomeIdx xs)

/-- Embeds `parse_condition_resolution` from `alerts.rs`: collect the cache
entries whose `condition_id` matches (both sides stripped of `0x`), sort by
outcome index, and derive question / outcomes / token id / winning outcome.
(The Rust code iterates `HashMap::values()` in nondeterministic order and then
sorts; the association-list order stands in for the iteration order.) -/
def parse_condition_resolution (ev : WebhookEvent) (cache : Markets.Cache) :
    Option Alert := do
  let traw ← ev.transaction_information
  let tx := deTxInfo traw
  let cid ← ev.conditionId
  let orcF ← ev.oracle
  let orc := orcF.getD ""
  let qidF ← ev.questionId
  let qid := qidF.getD ""
  let numerators := ev.payoutNumerators.getD []
  let bare := strip0x cid
  let matched := sortByOutcomeIdx ((cache.map Prod.snd).filter (fun info =>
    match info.condition_id with
    | some c => strip0x c == bare
    | none => false))
  let question := matched.head?.map (·.question)
  let outcomes := matched.map (·.outcome)
  let token_id := matched.head?.map (·.gamma_token_id)
  let winning := (numerators.findIdx? (fun n => decide (0 < (parseNat? n).getD 0))).bind
    (fun i => outcomes[i]?)
  pure (.MarketResolution tx.block_timestamp cid orc qid numerators
    tx.transaction_hash tx.block_number question winning outcomes token_id)

/-- One market record of a Gamma catalog response, as read by
`fetch_resolution_context`. `outcomes`/`clobTokenIds` are `none` when the
field is missing or its JSON-encoded array fails to parse (the code treats
both identically via `unwrap_or_default`). -/
structure GammaRec where
  conditionId : Option String
  question : Option String
  outcomes : Option (List String)
  clobTokenIds : Option (List String)
deriving DecidableEq

/-- Embeds `fetch_resolution_context` from `alerts.rs` as a function of the
(decoded) catalog response body; `body = none` models a failed request or an
unparseable response. The returned record must have a `conditionId` equal to
the queried one after stripping `0x` from both sides. -/
def fetch_resolution_context (body : Option (List GammaRec))
    (condition_id : String) : Option (String × List String × String) := do
  let recs ← body
  let bare := strip0x condition_id
  let m ← recs.find? (fun r =>
    match r.conditionId with
    | some cid => strip0x cid == bare
    | none => false)
  let q ← m.question
  let outcomes := m.outcomes.getD []
  let token_ids := m.clobTokenIds.getD []
  pure (q, outcomes, token_ids.head?.getD "")

/-- Embeds the resolution-enrichment block of `webhook_handler`: on a cache
miss (`question` still `none`), consult the catalog response and, on a
verified match, fill question/outcomes/winning outcome and (when non-empty)
the token id; otherwise leave the alert untouched. -/
def enrich_alert (alert : Option Alert) (body : Option (List GammaRec)) :
    Option Alert :=
  match alert with
  | some (.MarketResolution ts cid orc qid nums tx bn q wo outs tid) =>
    if q.isSome then some (.MarketResolution ts cid orc qid nums tx bn q wo outs tid)
    else
      match fetch_resolution_context body cid with
      | some (q2, outs2, tid2) =>
        let winner := (nums.findIdx? (fun n => decide (0 < (parseNat? n).getD 0))).bind
          (fun i => outs2[i]?)
        some (.MarketResolution ts cid orc qid nums tx bn (some q2) winner outs2
          (if tid2 = "" then tid else some tid2))
      | none => some (.MarketResolution ts cid orc qid nums tx bn q wo outs tid)
  | a => a

/-- Value of one hex digit. -/
def hexDigitVal? (c : Char) : Option Nat :=
  if c.isDigit then some (c.toNat - 48)
  else if 'a' ≤ c ∧ c ≤ 'f' then some (c.toNat - 87)
  else if 'A' ≤ c ∧ c ≤ 'F' then some (c.toNat - 55)
  else none

/-- Unsigned hex parse (models `i64::from_str_radix(hex, 16)` on the digit
strings that occur; `none` on empty or invalid input). -/
def hexNat? (l : List Char) : Option Nat :=
  if l.isEmpty then none
  else l.foldlM (fun acc c => (hexDigitVal? c).map (fun v => acc * 16 + v)) 0

/-- The timestamp parse inside `is_event_live`: hex when the string starts
with `0x`, decimal otherwise. -/
def parseTsInt? (s : String) : Option Int :=
  match s.toList with
  | '0' :: 'x' :: rest => (hexNat? rest).map Int.ofNat
  | _ => parseInt? s

/-- Embeds `is_event_live` from `alerts.rs` with the wall clock `now` as an
explicit parameter: fail-open (`true`) when the timestamp is missing or
unparseable, else live iff `|now − ts| < 300`. -/
def is_event_live (ev : WebhookEvent) (now : Int) : Bool :=
  match ev.transaction_information with
  | none => true
  | some traw =>
    match traw.block_timestamp with
    | none => true
    | some ts_str =>
      match parseTsInt? ts_str with
      | none => true
      | some ts => decide ((now - ts).natAbs < 300)

/-- Observable side effects of processing one webhook event: `metadata` is a
send on the metadata side-channel, `trade` a broadcast on the trade channel,
`alert` a broadcast on the alert channel. -/
inductive Effect where
  | metadata (asset_id : String) (info : Markets.MarketInfo)
  | trade (t : LiveTrade)
  | alert (a : Alert)
deriving DecidableEq

/-- Embeds the body of the `for event in &payload.event_data` loop of
`webhook_handler` (`alerts.rs`), with `is_live` precomputed and the catalog
response as an oracle. Effects are listed in emission order. -/
def process_event (event_name : String) (ev : WebhookEvent)
    (cache : Markets.Cache) (ws_active is_live : Bool)
    (gammaBody : Option (List GammaRec)) : List Effect :=
  let metaAndTrade : List Effect :=
    if event_name = "OrderFilled" ∧ is_live = true then
      match build_live_trade ev cache with
      | some lt =>
        (match List.lookup lt.cache_key cache with
         | some info => [Effect.metadata lt.asset_id info]
         | none => []) ++
        (if ws_active then [] else [Effect.trade lt])
      | none => []
    else []
  let alert0 : Option Alert :=
    if event_name = "OrderFilled" then
      (if ws_active then none else parse_order_filled ev cache)
    else if event_name = "ConditionResolution" then
      parse_condition_resolution ev cache
    else none
  match enrich_alert alert0 gammaBody with
  | some a => metaAndTrade ++ (if is_live then [Effect.alert a] else [])
  | none => metaAndTrade

/-- `process_event` with `is_live` computed from the event and wall clock, as
the handler does. -/
def process_webhook_event (event_name : String) (ev : WebhookEvent)
    (cache : Markets.Cache) (ws_active : Bool) (now : Int)
    (gammaBody : Option (List GammaRec)) : List Effect :=
  process_event event_name ev cache ws_active (is_event_live ev now) gammaBody

/-- One entry of `recent_trades`: `(trader, timestamp, side, usdc_amount)`. -/
structure ConvEntry where
  trader : String
  ts : Nat
  side : String
  usdc : ℚ
deriving DecidableEq

/-- Embeds `ConvergenceAlert` from `alerts.rs`. -/
structure ConvergenceAlert where
  question : String
  asset_id : String
  outcome : String
  traders : List String
  trader_count : Nat
  window_seconds : Nat
  side : String
  total_usdc : ℚ
deriving DecidableEq

/-- Embeds `ConvergenceDetector` from `alerts.rs`; `Instant`s are `Nat`
seconds. -/
structure ConvergenceDetector where
  recent_trades : List (String × List ConvEntry)
  window : Nat
  threshold : Nat
  last_alert : List (String × Nat)
  max_assets : Nat
deriving DecidableEq

/-- Embeds `ConvergenceDetector::new`. -/
def ConvergenceDetector.new : ConvergenceDetector :=
  ⟨[], 300, 2, [], 500⟩

/-- Embeds `ConvergenceDetector::record_trade` with the call instant `now` as
an explicit parameter: append the entry, evict entries outside the window,
count distinct traders, apply the 60-second per-asset dedup, and fire an
alert recording `last_alert[asset] = now`. (`Instant` subtraction saturates
at zero, which `Nat` subtraction matches; the distinct-trader set iterates in
first-seen order here where Rust's `HashSet` order is nondeterministic.) -/
def ConvergenceDetector.record_trade (d : ConvergenceDetector)
    (trade : LiveTrade) (now : Nat) :
    ConvergenceDetector × Option ConvergenceAlert :=
  let asset_id := trade.asset_id
  let usdc := (parseDecQ trade.usdc_amount).getD 0
  let entries0 := (List.lookup asset_id d.recent_trades).getD []
  let entries := (entries0 ++ [ConvEntry.mk trade.trader now trade.side usdc]).filter
    (fun e => now - e.ts < d.window)
  let recent := assocUpsert asset_id entries d.recent_trades
  let distinct := (entries.map (·.trader)).eraseDups
  let count := distinct.length
  let fire : ConvergenceDetector × Option ConvergenceAlert :=
    let total_usdc := (entries.map (·.usdc)).sum
    let buy_count := (entries.filter (fun e => e.side = "buy")).length
    let sell_count := entries.length - buy_count
    let side := if sell_count ≤ buy_count then "BUY" else "SELL"
    ({ d with
        recent_trades := recent
        last_alert := assocUpsert asset_id now d.last_alert },
     some ⟨trade.question, asset_id, trade.outcome, distinct, count, 300, side,
       total_usdc⟩)
  if d.threshold ≤ count then
    match List.lookup asset_id d.last_alert with
    | some last =>
      if now - last < 60 then ({ d with recent_trades := recent }, none)
      else fire
    | none => fire
  else ({ d with recent_trades := recent }, none)

/-- Run a sequence of `record_trade` calls, returning the final detector and
the per-call outputs in order. -/
def ConvergenceDetector.run (d : ConvergenceDetector)
    (calls : List (LiveTrade × Nat)) :
    ConvergenceDetector × List (Option ConvergenceAlert) :=
  match calls with
  | [] => (d, [])
  | (tr, t) :: rest =>
    let r1 := d.record_trade tr t
    let r2 := r1.1.run rest
    (r2.1, r1.2 :: r2.2)

end Alerts

/-! ## auth.rs / db.rs / routes.rs — wallet auth and nonce store -/

namespace Db

/-- Embeds a row of the `users` table. -/
structure UserRow where
  nonce : String
  issued_at : String
  created_at : String
  last_login : String
deriving DecidableEq

/-- The `users` table keyed by lowercase address. -/
abbrev Users := List (String × UserRow)

/-- Embeds `get_or_create_user` from `db.rs` with the generated nonce and
wall-clock time as oracle parameters: upsert the row, setting `nonce`,
`issued_at` and `last_login` (and `created_at` for a new row). -/
def get_or_create_user (users : Users) (address : String)
    (fresh_nonce now : String) : Users × (String × String) :=
  let addr := lowerStr address
  match List.lookup addr users with
  | some row =>
    (assocUpsert addr
      { row with
          nonce := fresh_nonce
          issued_at := now
          last_login := now } users, (fresh_nonce, now))
  | none =>
    (assocUpsert addr ⟨fresh_nonce, now, now, now⟩ users, (fresh_nonce, now))

/-- Embeds `verify_and_rotate_nonce` from `db.rs` with the generated
replacement nonce and wall-clock time as oracle parameters: on an exact
`(nonce, issued_at)` match the row's nonce is replaced and `last_login`
updated (`issued_at` is left as stored); on a mismatch or a missing row the
store is returned unchanged with `false`. -/
def verify_and_rotate_nonce (users : Users) (address nonce issued_at : String)
    (fresh_nonce now : String) : Users × Bool :=
  let addr := lowerStr address
  match List.lookup addr users with
  | some row =>
    if row.nonce = nonce ∧ row.issued_at = issued_at then
      (assocUpsert addr { row with nonce := fresh_nonce, last_login := now } users,
        true)
    else (users, false)
  | none => (users, false)

end Db

namespace Auth

/-- Embeds the `AuthError` enum from `auth.rs`. -/
inductive AuthError where
  | InvalidSignature
  | NonceMismatch
  | Expired
  | InvalidToken
deriving DecidableEq

/-- Embeds `IntoResponse for AuthError`: every auth error maps to HTTP 401. -/
def AuthError.statusCode : AuthError → Nat := fun _ => 401

/-- Embeds `auth_verify` from `routes.rs`. EIP-712 recovery is out of scope
(spec §1); its outcome is the oracle `sigCheck` (`some e` = recovery failed
with `e`, covering InvalidSignature and Expired). On success the issued JWT
is represented by its subject, the lowercased address (token encoding is out
of scope). A failed nonce check is reported as `NonceMismatch`. -/
def auth_verify (users : Db.Users) (address nonce issued_at : String)
    (sigCheck : Option AuthError) (fresh_nonce now : String) :
    Db.Users × Except AuthError String :=
  match sigCheck with
  | some e => (users, .error e)
  | none =>
    let addr := lowerStr address
    let res := Db.verify_and_rotate_nonce users addr nonce issued_at fresh_nonce now
    if res.2 then (res.1, .ok addr)
    else (res.1, .error .NonceMismatch)

end Auth

/-! ## routes.rs — portfolio simulator (backtest core) -/

namespace Routes

/-- Embeds `PnlDailyTraderRow` from `types.rs`. -/
structure PnlDailyTraderRow where
  trader : String
  date : String
  asset_id : String
  net_token_delta : String
  cash_flow_delta : String
  last_price : String
deriving DecidableEq

/-- Embeds `PortfolioPoint`; the Rust fields are `{:.2}`-formatted strings,
modelled as the exact rational values. -/
structure PortfolioPoint where
  date : String
  value : ℚ
  pnl : ℚ
  pnl_pct : ℚ
deriving DecidableEq

/-- The mutable state of `simulate_portfolio`: `asset_state` maps asset id to
`(tokens, cash_flow, last_price)`; plus the running cash balance, the points
emitted so far, and the date currently being accumulated. -/
structure SimSt where
  asset_state : List (String × (ℚ × ℚ × ℚ))
  cash_balance : ℚ
  points : List PortfolioPoint
  current_date : String
deriving DecidableEq

/-- The point emitted at a date boundary:
`value = cash_balance + Σ tokens × last_price`. -/
def emit_point (st : SimSt) (date : String) (initial_capital : ℚ) :
    PortfolioPoint :=
  let positions_value := (st.asset_state.map (fun p => p.2.1 * p.2.2.2)).sum
  let total_value := st.cash_balance + positions_value
  let pnl := total_value - initial_capital
  ⟨date, total_value, pnl,
    if 0 < initial_capital then pnl / initial_capital * 100 else 0⟩

/-- The scaling / capital-constraint / delta-application part of one
iteration of the row loop in `simulate_portfolio` (`routes.rs`): scale the
deltas by the trader's scale (default 1), clip a buy whose cost exceeds a
positive cash balance by `cash_balance / cost`, skip a buy entirely (only
refreshing `last_price`) when the balance is already ≤ 0, otherwise apply
the deltas and update `last_price`. -/
def apply_row (trader_scales : List (String × ℚ)) (st : SimSt)
    (row : PnlDailyTraderRow) : SimSt :=
  let scale := (List.lookup (lowerStr row.trader) trader_scales).getD 1
  let delta_tokens := (parseDecQ row.net_token_delta).getD 0 * scale
  let delta_cash := (parseDecQ row.cash_flow_delta).getD 0 * scale
  let price := (parseDecQ row.last_price).getD 0
  let applyDeltas : ℚ → ℚ → SimSt := fun dt dc =>
    let entry := (List.lookup row.asset_id st.asset_state).getD (0, 0, 0)
    { st with
        cash_balance := st.cash_balance + dc
        asset_state := assocUpsert row.asset_id
          (entry.1 + dt, entry.2.1 + dc, price) st.asset_state }
  if delta_cash < 0 ∧ st.cash_balance < -delta_cash ∧ 0 < st.cash_balance then
    let clip := st.cash_balance / (-delta_cash)
    applyDeltas (delta_tokens * clip) (delta_cash * clip)
  else if delta_cash < 0 ∧ st.cash_balance ≤ 0 then
    let entry := (List.lookup row.asset_id st.asset_state).getD (0, 0, 0)
    let priceOnly := assocUpsert row.asset_id (entry.1, entry.2.1, price) st.asset_state
    { st with asset_state := priceOnly }
  else applyDeltas delta_tokens delta_cash

/-- Embeds one iteration of the row loop in `simulate_portfolio`
(`routes.rs`): emit a point on a date change, record the new current date,
then run the delta-application step `apply_row`. -/
def sim_step (trader_scales : List (String × ℚ)) (initial_capital : ℚ)
    (st : SimSt) (row : PnlDailyTraderRow) : SimSt :=
  let st :=
    if st.current_date ≠ "" ∧ row.date ≠ st.current_date then
      { st with points := st.points ++ [emit_point st st.current_date initial_capital] }
    else st
  apply_row trader_scales { st with current_date := row.date } row

/-- The final point, with resolved prices overlaid where available. -/
def final_point (st : SimSt) (initial_capital : ℚ)
    (resolved : List (String × ℚ)) : PortfolioPoint :=
  let positions_value := (st.asset_state.map (fun p =>
    p.2.1 * ((List.lookup p.1 resolved).getD p.2.2.2))).sum
  let total_value := st.cash_balance + positions_value
  let pnl := total_value - initial_capital
  ⟨st.current_date, total_value, pnl,
    if 0 < initial_capital then pnl / initial_capital * 100 else 0⟩

/-- Embeds `simulate_portfolio` from `routes.rs`, additionally returning the
final simulator state (the Rust function mutates `asset_state` in place):
initial cash is the capital minus the pre-window cost (both clamped at 0),
then the row loop runs, and a final resolved-price point is appended when any
row was seen. -/
def simulate_portfolio (rows : List PnlDailyTraderRow)
    (asset_state0 : List (String × (ℚ × ℚ × ℚ))) (resolved : List (String × ℚ))
    (trader_scales : List (String × ℚ)) (initial_capital : ℚ) :
    List PortfolioPoint × SimSt :=
  let pre_window_cost := max ((asset_state0.map (fun p => -p.2.2.1)).sum) 0
  let cash0 := max (initial_capital - pre_window_cost) 0
  let st0 : SimSt := ⟨asset_state0, cash0, [], ""⟩
  let stF := rows.foldl (sim_step trader_scales initial_capital) st0
  if stF.current_date ≠ "" then
    (stF.points ++ [final_point stF initial_capital resolved], stF)
  else (stF.points, stF)

end Routes

/-! ## Concrete fixtures used by counterexamples and witnesses -/

namespace Fix

/-- A cache entry for the fixture asset. -/
def c3info : Markets.MarketInfo :=
  { question := "Q"
    outcome := "Yes"
    category := "cat"
    active := true
    gamma_token_id := "55555555555555555555"
    condition_id := some "0xdead"
    outcome_index := 0
    all_token_ids := ["55555555555555555555"]
    outcomes := ["Yes", "No"] }

/-- A well-formed `OrderFilled` webhook event (a buy of the fixture asset)
whose on-chain timestamp is 1000000000. -/
def c3ev : Alerts.WebhookEvent :=
  { transaction_information := some ⟨some "0xhash", some 123, some "1000000000"⟩
    makerAssetId := some "0"
    takerAssetId := some "55555555555555555555"
    makerAmountFilled := some "5000000"
    takerAmountFilled := some "0"
    maker := some "0xmakeraddr"
    contract_address := some "0xC5d563A36AE78145C45a50134d48A1215220f80a"
    conditionId := none
    oracle := none
    questionId := none
    payoutNumerators := none }

/-- A market cache holding the fixture asset under its digest key. -/
def c3cache : Markets.Cache :=
  [(Markets.cache_key "55555555555555555555".toList, c3info)]

/-- A catalog record for an unrelated market (its conditionId does not match
the fixture condition). -/
def g1 : Alerts.GammaRec :=
  { conditionId := some "0xfeed"
    question := some "Other?"
    outcomes := some ["A", "B"]
    clobTokenIds := some ["111", "222"] }

/-- A one-record catalog response body. -/
def gbody : List Alerts.GammaRec := [g1]

/-- An on-chain resolution row for the fixture condition: numerators [3, 0]. -/
def r6 : Markets.ConditionResolutionRow :=
  { condition_id := "0xdead", payout_numerators := ["3", "0"], block_number := 7 }

/-- A live trade on asset `X` by trader `bob`, for the convergence fixtures. -/
def tr7a : Alerts.LiveTrade :=
  { tx_hash := "h1"
    block_timestamp := "1"
    trader := "bob"
    side := "buy"
    asset_id := "X"
    amount := "1"
    price := 0
    usdc_amount := "100"
    question := "Q7"
    outcome := "Yes"
    category := "c"
    block_number := 1
    cache_key := [] }

/-- A second trade on the same asset by trader `carol`. -/
def tr7b : Alerts.LiveTrade :=
  { tr7a with trader := "carol", tx_hash := "h2" }

/-- A detector that has already seen trader `alice` on asset `X` at second
100, so the next distinct trader reaches the threshold of 2. -/
def d7 : Alerts.ConvergenceDetector :=
  { Alerts.ConvergenceDetector.new with
      recent_trades := [("X", [Alerts.ConvEntry.mk "alice" 100 "buy" 0])] }

/-- A daily delta row: a buy of 10 tokens costing 150 USDC at price 7. -/
def row8 : Routes.PnlDailyTraderRow :=
  { trader := "T"
    date := "2024-01-01"
    asset_id := "A"
    net_token_delta := "10"
    cash_flow_delta := "-150"
    last_price := "7" }

/-- A stored user row for the auth fixtures. -/
def u0 : Db.UserRow :=
  { nonce := "n0", issued_at := "t0", created_at := "c0", last_login := "l0" }

/-- A user store holding `u0` under a lowercase address. -/
def users0 : Db.Users := [("0xabc", u0)]

/-- The `LiveTrade` that `build_live_trade` produces from `c3ev`/`c3cache`. -/
def c3lt : Alerts.LiveTrade :=
  { tx_hash := "0xhash"
    block_timestamp := "1000000000"
    trader := "0xmakeraddr"
    side := "buy"
    asset_id := "55555555555555555555"
    amount := "0.000000"
    price := 0
    usdc_amount := "5.000000"
    question := "Q"
    outcome := "Yes"
    category := "cat"
    block_number := 123
    cache_key := Markets.cache_key "55555555555555555555".toList }

end Fix

/-! ## Properties of the token-id digest -/

namespace Markets

/-- A digit character is none of the three structural characters of a
scientific-notation token id. -/
theorem digit_not_special {c : Char} (h : c.isDigit) :
    c ≠ 'e' ∧ c ≠ 'E' ∧ c ≠ '.' := by
  refine ⟨?_, ?_, ?_⟩ <;> (rintro rfl; exact absurd h (by decide))

theorem findIdx_marker (p : Char → Bool) (l1 l2 : List Char) (a : Char)
    (h1 : ∀ c ∈ l1, p c = false) (ha : p a = true) (i : Nat) :
    List.findIdx? p (l1 ++ a :: l2) i = some (i + l1.length) := by
  induction l1 generalizing i with
  | nil => simp [List.findIdx?_cons, ha]
  | cons c cs ih =>
    have hc : p c = false := h1 c (by simp)
    rw [List.cons_append, List.findIdx?_cons, if_neg (by simp [hc]),
      ih (fun x hx => h1 x (by simp [hx])) (i + 1)]
    congr 1
    simp
    omega

theorem findE_marker (l1 l2 : List Char) (m : Char)
    (hm : m = 'e' ∨ m = 'E')
    (h1 : ∀ c ∈ l1, c ≠ 'e' ∧ c ≠ 'E')
    (h2 : m = 'E' → ∀ c ∈ l2, c ≠ 'e') :
    findE (l1 ++ m :: l2) = some l1.length := by
  unfold findE
  rcases hm with rfl | rfl
  · rw [findIdx_marker (fun c => c == 'e') l1 l2 'e'
      (fun c hc => by simp [(h1 c hc).1]) (by simp) 0]
    simp
  · have hnone : List.findIdx? (fun c => c == 'e') (l1 ++ 'E' :: l2) = none := by
      rw [List.findIdx?_eq_none_iff]
      intro x hx
      rcases List.mem_append.mp hx with hx | hx
      · simp [(h1 x hx).1]
      · rcases List.mem_cons.mp hx with rfl | hx
        · simp
        · simp [h2 rfl x hx]
    rw [hnone,
      findIdx_marker (fun c => c == 'E') l1 l2 'E'
        (fun c hc => by simp [(h1 c hc).2]) (by simp) 0]
    simp

theorem findE_eq_none (l : List Char) (h : ∀ c ∈ l, c ≠ 'e' ∧ c ≠ 'E') :
    findE l = none := by
  unfold findE
  have h1 : List.findIdx? (fun c => c == 'e') l = none := by
    rw [List.findIdx?_eq_none_iff]; intro x hx; simp [(h x hx).1]
  have h2 : List.findIdx? (fun c => c == 'E') l = none := by
    rw [List.findIdx?_eq_none_iff]; intro x hx; simp [(h x hx).2]
  rw [h1, h2]

theorem significant_digits_of_some {s : List Char} {p : Nat} (h : findE s = some p) :
    significant_digits s = (s.take p).filter (fun c => c ≠ '.') := by
  unfold significant_digits
  rw [h]

theorem significant_digits_of_none {s : List Char} (h : findE s = none) :
    significant_digits s = s := by
  unfold significant_digits
  rw [h]

/-- The branch on `sig.len() >= PREFIX_LEN` is immaterial: the key is always
the first 15 characters of the significand. -/
theorem cache_key_eq_take (l : List Char) :
    cache_key l = (significant_digits l).take 15 := by
  unfold cache_key keyLen
  by_cases h : 15 ≤ (significant_digits l).length
  · rw [if_pos h]
  · rw [if_neg h,
      List.take_of_length_le (show (significant_digits l).length ≤ 15 by omega)]

theorem take_append_self (l1 l2 : List Char) : (l1 ++ l2).take l1.length = l1 := by
  rw [List.take_append_eq_append_take]
  simp

theorem cache_key_subset (l : List Char) : cache_key l ⊆ l := by
  rw [cache_key_eq_take]
  cases hf : findE l with
  | none =>
    rw [significant_digits_of_none hf]
    exact List.take_subset _ _
  | some p =>
    rw [significant_digits_of_some hf]
    intro c hc
    have h1 := List.take_subset 15 _ hc
    have h2 := (List.mem_filter.mp h1).1
    exact List.take_subset _ _ h2

theorem cache_key_length_le (l : List Char) : (cache_key l).length ≤ 15 := by
  rw [cache_key_eq_take, List.length_take]
  omega

/-- A short list without exponent markers is a fixed point of `cache_key`. -/
theorem cache_key_fixed (l : List Char) (hlen : l.length ≤ 15)
    (h : ∀ c ∈ l, c ≠ 'e' ∧ c ≠ 'E') : cache_key l = l := by
  rw [cache_key_eq_take, significant_digits_of_none (findE_eq_none l h)]
  exact List.take_of_length_le hlen

/-- On an all-digit input (the full-precision encoding) the key is the
first-15 truncation. -/
theorem cache_key_all_digits (l : List Char) (h : ∀ c ∈ l, c.isDigit) :
    cache_key l = l.take 15 := by
  rw [cache_key_eq_take, significant_digits_of_none (findE_eq_none l
    (fun c hc => ⟨(digit_not_special (h c hc)).1, (digit_not_special (h c hc)).2.1⟩))]

/-- Key computation in the presence of an exponent suffix `m :: ep`
(`m` is `e` or `E`): the significand is the pre-marker part with dots
removed. -/
theorem cache_key_exp (pre : List Char) (m : Char) (ep : List Char)
    (hpre : ∀ c ∈ pre, c.isDigit ∨ c = '.')
    (hm : m = 'e' ∨ m = 'E') (hep : m = 'E' → ∀ c ∈ ep, c ≠ 'e') :
    cache_key (pre ++ m :: ep) = (pre.filter (fun c => c ≠ '.')).take 15 := by
  have hpre' : ∀ c ∈ pre, c ≠ 'e' ∧ c ≠ 'E' := by
    intro c hc
    rcases hpre c hc with h | rfl
    · exact ⟨(digit_not_special h).1, (digit_not_special h).2.1⟩
    · exact ⟨by decide, by decide⟩
  have hfe : findE (pre ++ m :: ep) = some pre.length :=
    findE_marker pre ep m hm hpre' hep
  rw [cache_key_eq_take, significant_digits_of_some hfe, take_append_self]

end Markets

/-! ## Claim theorems: C2 and C9 -/

/-- C2 counterexample: the full-precision form of the claim's own example
token contains no exponent marker, yet the digest does not return it
unchanged (it is truncated to 15 characters), refuting the claim's "returns
the string unchanged if absent". -/
theorem c2_counterexample :
    Markets.cacheKeyS ("8715511933644157" ++ String.mk (List.replicate 60 '0'))
      ≠ "8715511933644157" ++ String.mk (List.replicate 60 '0') := by
  decide

/-- C2 (amended): for a full-precision all-digit token id `t` whose leading
digits are the mantissa digits (at least 15 of them) of a scientific-notation
projection `d.ds e es`, the digest returns equal keys; the digest locates the
first exponent marker, takes the mantissa with `.` removed — the whole string
when no marker is present — and in every case truncates to the first 15
characters; in particular both encodings of the example token digest to
`871551193364415`. -/
theorem c2_digest_projection :
    (∀ (d : Char) (ds es t : List Char),
      d.isDigit → (∀ c ∈ ds, c.isDigit) → (∀ c ∈ t, c.isDigit) →
      15 ≤ (d :: ds).length → (∃ r, t = (d :: ds) ++ r) →
      Markets.cache_key (d :: '.' :: (ds ++ 'e' :: es)) = Markets.cache_key t)
    ∧ Markets.cacheKeyS "8.715511933644157e75" = "871551193364415"
    ∧ Markets.cacheKeyS ("8715511933644157" ++ String.mk (List.replicate 60 '0'))
        = "871551193364415" := by
  refine ⟨?_, by decide, by decide⟩
  rintro d ds es t hd hds ht hlen ⟨r, rfl⟩
  have hshape : d :: '.' :: (ds ++ 'e' :: es) = (d :: '.' :: ds) ++ 'e' :: es := by
    simp
  have hpre : ∀ c ∈ d :: '.' :: ds, c.isDigit ∨ c = '.' := by
    intro c hc
    rcases List.mem_cons.mp hc with rfl | hc
    · exact Or.inl hd
    · rcases List.mem_cons.mp hc with rfl | hc
      · exact Or.inr rfl
      · exact Or.inl (hds c hc)
  have hfilter : (d :: '.' :: ds).filter (fun c => c ≠ '.') = d :: ds := by
    rw [List.filter_cons_of_pos (by simp [(Markets.digit_not_special hd).2.2]),
      List.filter_cons_of_neg (by simp),
      List.filter_eq_self.mpr
        (fun a ha => by simp [(Markets.digit_not_special (hds a ha)).2.2])]
  rw [hshape, Markets.cache_key_exp (d :: '.' :: ds) 'e' es hpre (Or.inl rfl)
    (fun h => by exact absurd h (by decide)), hfilter,
    Markets.cache_key_all_digits _ ht, List.take_append_eq_append_take,
    show 15 - (d :: ds).length = 0 by omega]
  simp

/-- Witness for C2: the projection law applied at the claim's example token. -/
theorem c2_digest_projection_witness :
    Markets.cache_key ('8' :: '.' :: ("715511933644157".toList ++ 'e' :: "75".toList))
      = Markets.cache_key ("8715511933644157".toList ++ List.replicate 60 '0') :=
  c2_digest_projection.1 '8' "715511933644157".toList "75".toList
    ("8715511933644157".toList ++ List.replicate 60 '0')
    (by decide) (by decide) (by decide) (by decide)
    ⟨List.replicate 60 '0', by decide⟩

/-- C9 counterexample: `"1.5"` consists of digits with one decimal point and
no exponent suffix, yet its digest is `"1.5"` itself, which is not all
digits. -/
theorem c9_counterexample :
    Markets.cacheKeyS "1.5" = "1.5"
    ∧ (Markets.cache_key "1.5".toList).all Char.isDigit = false := by
  decide

/-- C9 (amended): the digest of any input is at most 15 characters long; on
every input of the shape `digits [. digits] [(e|E) digits]` it is idempotent,
and it consists only of digits whenever the input carries an exponent suffix
or contains no decimal point (a dotted exponent-free input such as `"1.5"`
keeps its dot). -/
theorem c9_digest_wellformed :
    (∀ s : List Char, (Markets.cache_key s).length ≤ 15)
    ∧ (∀ ip dotP expP : List Char,
        (∀ c ∈ ip, c.isDigit) →
        (dotP = [] ∨ ∃ fp, (∀ c ∈ fp, c.isDigit) ∧ dotP = '.' :: fp) →
        (expP = [] ∨ ∃ m ep, (m = 'e' ∨ m = 'E') ∧ (∀ c ∈ ep, c.isDigit) ∧
          expP = m :: ep) →
        Markets.cache_key (Markets.cache_key (ip ++ dotP ++ expP))
            = Markets.cache_key (ip ++ dotP ++ expP)
        ∧ ((expP ≠ [] ∨ dotP = []) →
            (Markets.cache_key (ip ++ dotP ++ expP)).all Char.isDigit)) := by
  constructor
  · exact Markets.cache_key_length_le
  intro ip dotP expP hip hdot hexp
  have hpredot : ∀ c ∈ ip ++ dotP, c.isDigit ∨ c = '.' := by
    intro c hc
    rcases List.mem_append.mp hc with hc | hc
    · exact Or.inl (hip c hc)
    · rcases hdot with rfl | ⟨fp, hfp, rfl⟩
      · simp at hc
      · rcases List.mem_cons.mp hc with rfl | hc
        · exact Or.inr rfl
        · exact Or.inl (hfp c hc)
  rcases hexp with rfl | ⟨m, ep, hm, hep, rfl⟩
  · -- no exponent suffix
    have hs : ip ++ dotP ++ ([] : List Char) = ip ++ dotP := by simp
    rw [hs]
    have hsub := Markets.cache_key_subset (ip ++ dotP)
    constructor
    · exact Markets.cache_key_fixed _ (Markets.cache_key_length_le _)
        (fun c hc => by
          rcases hpredot c (hsub hc) with h | rfl
          · exact ⟨(Markets.digit_not_special h).1, (Markets.digit_not_special h).2.1⟩
          · exact ⟨by decide, by decide⟩)
    · rintro (h | rfl)
      · exact absurd rfl h
      · rw [List.all_eq_true]
        intro c hc
        have hc' : c ∈ ip ++ ([] : List Char) := hsub hc
        simp only [List.append_nil] at hc'
        exact hip c hc'
  · -- exponent suffix present
    have hs : ip ++ dotP ++ m :: ep = (ip ++ dotP) ++ m :: ep := by simp
    have hkey := Markets.cache_key_exp (ip ++ dotP) m ep hpredot hm
      (fun _ c hc => (Markets.digit_not_special (hep c hc)).1)
    have hdig : ∀ c ∈ Markets.cache_key ((ip ++ dotP) ++ m :: ep), c.isDigit := by
      intro c hc
      rw [hkey] at hc
      have h1 := List.take_subset 15 _ hc
      have h2 := List.mem_filter.mp h1
      rcases hpredot c h2.1 with h | rfl
      · exact h
      · simp at h2
    rw [hs]
    refine ⟨Markets.cache_key_fixed _ (Markets.cache_key_length_le _)
      (fun c hc => ⟨(Markets.digit_not_special (hdig c hc)).1,
        (Markets.digit_not_special (hdig c hc)).2.1⟩), ?_⟩
    intro _
    rw [List.all_eq_true]
    exact hdig

/-! ## Lowercasing and store lemmas for the auth claims -/

theorem ofNat_toNat_small (n : Nat) (h : n < 55296) : (Char.ofNat n).toNat = n := by
  simp [Char.ofNat, Char.toNat]
  split
  · rfl
  · rename_i hh
    omega

theorem toLower_toLower (c : Char) : c.toLower.toLower = c.toLower := by
  simp only [Char.toLower]
  by_cases h : c.toNat ≥ 65 ∧ c.toNat ≤ 90
  · have hn : (Char.ofNat (c.toNat + 32)).toNat = c.toNat + 32 :=
      ofNat_toNat_small _ (by omega)
    rw [if_pos h, if_neg (by rw [hn]; omega)]
  · rw [if_neg h, if_neg h]

theorem lowerStr_idem (s : String) : lowerStr (lowerStr s) = lowerStr s := by
  unfold lowerStr
  have hl : (String.mk (s.toList.map Char.toLower)).toList
      = s.toList.map Char.toLower := rfl
  rw [hl, List.map_map]
  congr 1
  exact List.map_congr_left (fun c _ => toLower_toLower c)

theorem lookup_assocUpsert_self {α β : Type} [DecidableEq α] (k : α) (v : β)
    (l : List (α × β)) : List.lookup k (assocUpsert k v l) = some v := by
  simp [assocUpsert, List.lookup]

/-! ## Claim theorems: C5 and C6 (resolution enrichment and prices) -/

/-- C5: resolution enrichment is verified. (i) When no record of the catalog
response has a `conditionId` matching the queried condition (`0x` stripped on
both sides), the lookup yields nothing. (ii) Any successful lookup takes its
question/outcomes/token-id precisely from a record whose `conditionId`
matches. (iii) On a failed lookup the enrichment step leaves the alert's
question, outcomes and token_id untouched. -/
theorem c5_resolution_verified :
    (∀ (body : List Alerts.GammaRec) (cid : String),
      (∀ m ∈ body, (match m.conditionId with
        | some c => strip0x c == strip0x cid
        | none => false) = false) →
      Alerts.fetch_resolution_context (some body) cid = none)
    ∧ (∀ (body : Option (List Alerts.GammaRec)) (cid q : String)
        (outs : List String) (tid : String),
      Alerts.fetch_resolution_context body cid = some (q, outs, tid) →
      ∃ recs m, body = some recs ∧ m ∈ recs
        ∧ (∃ c, m.conditionId = some c ∧ strip0x c = strip0x cid)
        ∧ m.question = some q ∧ outs = m.outcomes.getD []
        ∧ tid = (m.clobTokenIds.getD []).head?.getD "")
    ∧ (∀ (ts cid orc qid : String) (nums : List String) (tx : String) (bn : Nat)
        (wo : Option String) (outs : List String) (tid : Option String)
        (body : Option (List Alerts.GammaRec)),
      Alerts.fetch_resolution_context body cid = none →
      Alerts.enrich_alert
          (some (.MarketResolution ts cid orc qid nums tx bn none wo outs tid)) body
        = some (.MarketResolution ts cid orc qid nums tx bn none wo outs tid)) := by
  refine ⟨?_, ?_, ?_⟩
  · intro body cid h
    have hfind : body.find? (fun r =>
        match r.conditionId with
        | some c => strip0x c == strip0x cid
        | none => false) = none := by
      rw [List.find?_eq_none]
      intro m hm
      simp [h m hm]
    simp [Alerts.fetch_resolution_context, hfind]
  · intro body cid q outs tid h
    rcases body with _ | recs
    · simp [Alerts.fetch_resolution_context] at h
    rcases hfind : recs.find? (fun r =>
        match r.conditionId with
        | some c => strip0x c == strip0x cid
        | none => false) with _ | m
    · simp [Alerts.fetch_resolution_context, hfind] at h
    have hmem := List.mem_of_find?_eq_some hfind
    have hpred := List.find?_some hfind
    rcases hq : m.question with _ | q'
    · simp [Alerts.fetch_resolution_context, hfind, hq] at h
    have hcid : ∃ c, m.conditionId = some c ∧ strip0x c = strip0x cid := by
      rcases hc : m.conditionId with _ | c
      · rw [hc] at hpred
        simp at hpred
      · rw [hc] at hpred
        exact ⟨c, rfl, by simpa using hpred⟩
    simp [Alerts.fetch_resolution_context, hfind, hq] at h
    exact ⟨recs, m, rfl, hmem, hcid, by rw [hq, h.1], h.2.1.symm, h.2.2.symm⟩
  · intro ts cid orc qid nums tx bn wo outs tid body h
    simp [Alerts.enrich_alert, h]

/-- Witness for C5: the fixture response (whose only record is for another
condition) enriches nothing, and the raw alert passes through unchanged. -/
theorem c5_resolution_verified_witness :
    Alerts.fetch_resolution_context (some Fix.gbody) "0xdead" = none
    ∧ Alerts.enrich_alert
        (some (.MarketResolution "ts" "0xdead" "o" "q" ["1"] "tx" 5 none none [] none))
        (some Fix.gbody)
      = some (.MarketResolution "ts" "0xdead" "o" "q" ["1"] "tx" 5 none none [] none) :=
  have h1 := c5_resolution_verified.1 Fix.gbody "0xdead" (by decide)
  ⟨h1, c5_resolution_verified.2.2 "ts" "0xdead" "o" "q" ["1"] "tx" 5 none [] none
    (some Fix.gbody) h1⟩

/-- C6: for a DB-observed asset whose cache entry's `condition_id` (with any
`0x` prefix stripped) matches an on-chain resolution, a positive numerator
total with an in-range outcome index yields exactly the row with
`resolved_price = numerators[outcome_index] / Σ numerators` (and the row
appears in the populated table); a non-positive total or an out-of-range
index yields no row. -/
theorem c6_resolved_price :
    ∀ (resolutions : List Markets.ConditionResolutionRow) (cache : Markets.Cache)
      (assets : List String) (asset : String) (info : Markets.MarketInfo)
      (cid : String) (numerators : List String) (block : Nat),
      List.lookup (Markets.cache_key asset.toList) cache = some info →
      info.condition_id = some cid →
      Markets.resolution_lookup resolutions (strip0x cid)
        = some (numerators, block) →
      ((0 < (numerators.filterMap parseDecQ).sum
          ∧ info.outcome_index < (numerators.filterMap parseDecQ).length) →
        Markets.resolved_row_for resolutions cache asset
          = some ⟨asset,
              (numerators.filterMap parseDecQ).getD info.outcome_index 0
                / (numerators.filterMap parseDecQ).sum, cid, block⟩
        ∧ (asset ∈ assets →
          (⟨asset,
              (numerators.filterMap parseDecQ).getD info.outcome_index 0
                / (numerators.filterMap parseDecQ).sum, cid, block⟩ :
            Markets.ResolvedPriceRow) ∈
              Markets.populate_resolved_rows resolutions cache assets))
      ∧ (((numerators.filterMap parseDecQ).sum ≤ 0
          ∨ (numerators.filterMap parseDecQ).length ≤ info.outcome_index) →
        Markets.resolved_row_for resolutions cache asset = none) := by
  intro resolutions cache assets asset info cid numerators block h1 h2 h3
  constructor
  · rintro ⟨hpos, hidx⟩
    have hrow : Markets.resolved_row_for resolutions cache asset
        = some ⟨asset,
            (numerators.filterMap parseDecQ).getD info.outcome_index 0
              / (numerators.filterMap parseDecQ).sum, cid, block⟩ := by
      simp only [Markets.resolved_row_for, h1, h2, h3]
      rw [if_neg (by push_neg; exact ⟨hpos, hidx⟩)]
    refine ⟨hrow, fun hmem => ?_⟩
    unfold Markets.populate_resolved_rows
    exact List.mem_filterMap.mpr ⟨asset, hmem, hrow⟩
  · intro hskip
    simp only [Markets.resolved_row_for, h1, h2, h3]
    rw [if_pos hskip]

/-- Witness for C6: the fixture asset with numerators `[3, 0]` and outcome
index 0 resolves at price `3 / 3`. -/
theorem c6_resolved_price_witness :
    Markets.resolved_row_for [Fix.r6] Fix.c3cache "55555555555555555555"
      = some ⟨"55555555555555555555",
          ((["3", "0"] : List String).filterMap parseDecQ).getD
              Fix.c3info.outcome_index 0
            / ((["3", "0"] : List String).filterMap parseDecQ).sum,
          "0xdead", 7⟩ := by
  have hfm : (["3", "0"] : List String).filterMap parseDecQ = [(3 : ℚ), 0] := by
    decide
  have happ := c6_resolved_price [Fix.r6] Fix.c3cache ["55555555555555555555"]
    "55555555555555555555" Fix.c3info "0xdead" ["3", "0"] 7
    (by decide) (by decide) (by decide)
  exact (happ.1 (by rw [hfm]; refine ⟨by norm_num [List.sum_cons], by decide⟩)).1

/-- C10: a failed nonce verification performs no database write: when the
(lowercased) address has no stored row, or when the stored `(nonce,
issued_at)` pair differs from the supplied one, `verify_and_rotate_nonce`
returns `false` with the user store unchanged — a failed attempt cannot
rotate or invalidate a pending nonce. -/
theorem c10_failed_verify_no_write :
    (∀ (users : Db.Users) (address nonce issued_at fresh now : String),
      List.lookup (lowerStr address) users = none →
      Db.verify_and_rotate_nonce users address nonce issued_at fresh now
        = (users, false))
    ∧ (∀ (users : Db.Users) (address nonce issued_at fresh now : String)
        (row : Db.UserRow),
      List.lookup (lowerStr address) users = some row →
      (row.nonce ≠ nonce ∨ row.issued_at ≠ issued_at) →
      Db.verify_and_rotate_nonce users address nonce issued_at fresh now
        = (users, false)) := by
  constructor
  · intro users address nonce issued_at fresh now h
    simp [Db.verify_and_rotate_nonce, h]
  · intro users address nonce issued_at fresh now row h hne
    have hcond : ¬ (row.nonce = nonce ∧ row.issued_at = issued_at) := by
      rcases hne with h1 | h1 <;> exact fun hc => h1 (by simp [hc.1, hc.2])
    simp [Db.verify_and_rotate_nonce, h, hcond]

/-- Witness for C10: a missing row and a mismatched nonce both leave the
fixture store untouched. -/
theorem c10_failed_verify_no_write_witness :
    Db.verify_and_rotate_nonce Fix.users0 "0xzzz" "n0" "t0" "f" "w"
      = (Fix.users0, false)
    ∧ Db.verify_and_rotate_nonce Fix.users0 "0xabc" "bad" "t0" "f" "w"
      = (Fix.users0, false) :=
  ⟨c10_failed_verify_no_write.1 Fix.users0 "0xzzz" "n0" "t0" "f" "w" (by decide),
   c10_failed_verify_no_write.2 Fix.users0 "0xabc" "bad" "t0" "f" "w" Fix.u0
     (by decide) (Or.inl (by decide))⟩

/-- C4: nonces are single-use — a successful verification rotates the stored
nonce to the freshly generated value, so replaying the identical
`(address, nonce, issued_at, signature)` tuple (the signature still
recovering correctly) fails: `auth_verify` returns `NonceMismatch`, which
maps to HTTP 401, and the replay performs no further write. The rotation
makes the replay fail provided the fresh random nonce differs from the
consumed one. -/
theorem c4_nonce_single_use :
    ∀ (users : Db.Users) (address nonce issued_at fresh1 now1 fresh2 now2 : String)
      (row : Db.UserRow),
      List.lookup (lowerStr address) users = some row →
      row.nonce = nonce → row.issued_at = issued_at → fresh1 ≠ nonce →
      (Db.verify_and_rotate_nonce users address nonce issued_at fresh1 now1).2
          = true
      ∧ Auth.auth_verify
            (Db.verify_and_rotate_nonce users address nonce issued_at fresh1 now1).1
            address nonce issued_at none fresh2 now2
          = ((Db.verify_and_rotate_nonce users address nonce issued_at fresh1 now1).1,
             Except.error Auth.AuthError.NonceMismatch)
      ∧ Auth.AuthError.NonceMismatch.statusCode = 401 := by
  intro users address nonce issued_at fresh1 now1 fresh2 now2 row hrow hn hi hne
  have hfirst : Db.verify_and_rotate_nonce users address nonce issued_at fresh1 now1
      = (assocUpsert (lowerStr address)
          { row with nonce := fresh1, last_login := now1 } users, true) := by
    simp [Db.verify_and_rotate_nonce, hrow, hn, hi]
  refine ⟨by simp [hfirst], ?_, rfl⟩
  have hlook : List.lookup (lowerStr (lowerStr address))
      (assocUpsert (lowerStr address)
        { row with nonce := fresh1, last_login := now1 } users)
      = some { row with nonce := fresh1, last_login := now1 } := by
    rw [lowerStr_idem, lookup_assocUpsert_self]
  have hsecond : Db.verify_and_rotate_nonce
      (assocUpsert (lowerStr address)
        { row with nonce := fresh1, last_login := now1 } users)
      (lowerStr address) nonce issued_at fresh2 now2
      = (assocUpsert (lowerStr address)
          { row with nonce := fresh1, last_login := now1 } users, false) := by
    have hcond : ¬ (fresh1 = nonce ∧ row.issued_at = issued_at) := fun hc => hne hc.1
    simp only [Db.verify_and_rotate_nonce, hlook]
    rw [if_neg hcond]
  rw [hfirst]
  simp [Auth.auth_verify, hsecond]

/-- Witness for C4: the fixture user verifies once and the replay is
rejected with a 401 nonce mismatch. -/
theorem c4_nonce_single_use_witness :
    (Db.verify_and_rotate_nonce Fix.users0 "0xABC" "n0" "t0" "n1" "l1").2 = true
    ∧ Auth.auth_verify
          (Db.verify_and_rotate_nonce Fix.users0 "0xABC" "n0" "t0" "n1" "l1").1
          "0xABC" "n0" "t0" none "n2" "l2"
        = ((Db.verify_and_rotate_nonce Fix.users0 "0xABC" "n0" "t0" "n1" "l1").1,
           Except.error Auth.AuthError.NonceMismatch)
    ∧ Auth.AuthError.NonceMismatch.statusCode = 401 :=
  c4_nonce_single_use Fix.users0 "0xABC" "n0" "t0" "n1" "l1" "n2" "l2" Fix.u0
    (by decide) rfl rfl (by decide)

/-! ## Convergence-detector lemmas and claim C7 -/

namespace Alerts

theorem lookup_filter_of_ne {α β : Type} [DecidableEq α] {a : α}
    (q : α × β → Bool) (l : List (α × β)) (hq : ∀ v : β, q (a, v) = true) :
    List.lookup a (l.filter q) = List.lookup a l := by
  induction l with
  | nil => rfl
  | cons p rest ih =>
    obtain ⟨k1, v1⟩ := p
    by_cases ha : a = k1
    · subst ha
      rw [List.filter_cons_of_pos (hq v1), List.lookup_cons, List.lookup_cons]
      simp
    · cases hf : q (k1, v1)
      · rw [List.filter_cons_of_neg (by simp [hf]), ih, List.lookup_cons,
          beq_false_of_ne ha]
      · rw [List.filter_cons_of_pos hf, List.lookup_cons, List.lookup_cons,
          beq_false_of_ne ha]
        exact ih

theorem lookup_assocUpsert_ne {α β : Type} [DecidableEq α] {a k : α} (v : β)
    (l : List (α × β)) (h : a ≠ k) :
    List.lookup a (assocUpsert k v l) = List.lookup a l := by
  have hb : (a == k) = false := beq_false_of_ne h
  unfold assocUpsert
  rw [List.lookup_cons, hb]
  exact lookup_filter_of_ne _ l (fun w => by simp [h])

/-- Branch analysis of `record_trade`: either it returns no alert and leaves
`last_alert` untouched, or it fires, stamps `last_alert[asset] = now`, and
the dedup guard was passed (no prior stamp, or one at least 60 s old). -/
theorem record_trade_spec (d : ConvergenceDetector) (tr : LiveTrade) (now : Nat) :
    ((d.record_trade tr now).2 = none
      ∧ (d.record_trade tr now).1.last_alert = d.last_alert)
    ∨ ((d.record_trade tr now).2.isSome
      ∧ (d.record_trade tr now).1.last_alert
          = assocUpsert tr.asset_id now d.last_alert
      ∧ (List.lookup tr.asset_id d.last_alert = none
        ∨ ∃ t, List.lookup tr.asset_id d.last_alert = some t ∧ 60 ≤ now - t)) := by
  unfold ConvergenceDetector.record_trade
  simp only []
  split
  · split
    · split
      · exact Or.inl ⟨rfl, rfl⟩
      · rename_i heq hlt
        exact Or.inr ⟨rfl, rfl, Or.inr ⟨_, heq, by omega⟩⟩
    · rename_i heq
      exact Or.inr ⟨rfl, rfl, Or.inl heq⟩
  · exact Or.inl ⟨rfl, rfl⟩

theorem record_trade_fire_last {d : ConvergenceDetector} {tr : LiveTrade}
    {now : Nat} (h : (d.record_trade tr now).2.isSome) :
    (d.record_trade tr now).1.last_alert
      = assocUpsert tr.asset_id now d.last_alert := by
  rcases record_trade_spec d tr now with ⟨hn, _⟩ | ⟨_, hl, _⟩
  · rw [hn] at h
    simp at h
  · exact hl

/-- The 60-second dedup: with a stamp under 60 s old for the trade's asset,
`record_trade` returns no alert and leaves `last_alert` unchanged. -/
theorem record_trade_dedup {d : ConvergenceDetector} {tr : LiveTrade}
    {now t : Nat} (hla : List.lookup tr.asset_id d.last_alert = some t)
    (hnow : now < t + 60) :
    (d.record_trade tr now).2 = none
    ∧ (d.record_trade tr now).1.last_alert = d.last_alert := by
  rcases record_trade_spec d tr now with h | ⟨_, _, hcase⟩
  · exact h
  · exfalso
    rcases hcase with hnone | ⟨t2, ht2, hge⟩
    · rw [hla] at hnone
      exact Option.noConfusion hnone
    · rw [hla] at ht2
      have heq : t2 = t := by injection ht2 with h; exact h.symm
      omega

/-- One step inside an asset's dedup window: a call for that asset returns
no alert, and the asset's stamp survives unchanged whatever the call is. -/
theorem record_trade_window {d : ConvergenceDetector} {tr : LiveTrade}
    {now : Nat} {a : String} {t : Nat}
    (hla : List.lookup a d.last_alert = some t) (hnow : now < t + 60) :
    (tr.asset_id = a → (d.record_trade tr now).2 = none)
    ∧ List.lookup a (d.record_trade tr now).1.last_alert = some t := by
  by_cases ha : tr.asset_id = a
  · subst ha
    have h := record_trade_dedup hla hnow
    exact ⟨fun _ => h.1, by rw [h.2, hla]⟩
  · refine ⟨fun h => absurd h ha, ?_⟩
    rcases record_trade_spec d tr now with ⟨_, hl⟩ | ⟨_, hl, _⟩
    · rw [hl, hla]
    · rw [hl, lookup_assocUpsert_ne _ _ (fun he => ha he.symm), hla]

/-- Any sequence of calls inside an asset's dedup window: every call for
that asset outputs no alert, and the stamp survives. -/
theorem run_window {a : String} {t : Nat} :
    ∀ (calls : List (LiveTrade × Nat)) (d : ConvergenceDetector),
      List.lookup a d.last_alert = some t →
      (∀ c ∈ calls, c.2 < t + 60) →
      List.lookup a (d.run calls).1.last_alert = some t
      ∧ ∀ p ∈ calls.zip (d.run calls).2, p.1.1.asset_id = a → p.2 = none := by
  intro calls
  induction calls with
  | nil =>
    intro d hla _
    exact ⟨hla, by simp [ConvergenceDetector.run]⟩
  | cons c rest ih =>
    intro d hla htimes
    obtain ⟨tr, tm⟩ := c
    have hE := @record_trade_window d tr tm a t hla
      (htimes (tr, tm) (by simp))
    have hrun := ih (d.record_trade tr tm).1 hE.2
      (fun c hc => htimes c (by simp [hc]))
    refine ⟨by simpa [ConvergenceDetector.run] using hrun.1, ?_⟩
    intro p hp hpa
    simp only [ConvergenceDetector.run, List.zip_cons_cons] at hp
    rcases List.mem_cons.mp hp with rfl | hp
    · exact hE.1 hpa
    · exact hrun.2 p hp hpa

end Alerts

/-- C7: convergence dedup. (i) Two consecutive `record_trade` calls on the
same detector for the same asset less than 60 s apart produce at most one
alert: if the first fires, the second returns none. (ii) Once a call fires
for an asset, every call for that asset in any subsequent run of calls less
than 60 s after the fire returns no alert, even if the distinct-trader
threshold is met. -/
theorem c7_convergence_dedup :
    (∀ (d : Alerts.ConvergenceDetector) (tr1 tr2 : Alerts.LiveTrade)
      (t1 t2 : Nat),
      tr2.asset_id = tr1.asset_id → t2 < t1 + 60 →
      (d.record_trade tr1 t1).2.isSome →
      ((d.record_trade tr1 t1).1.record_trade tr2 t2).2 = none)
    ∧ (∀ (d : Alerts.ConvergenceDetector) (tr1 : Alerts.LiveTrade) (t1 : Nat)
        (calls : List (Alerts.LiveTrade × Nat)),
      (d.record_trade tr1 t1).2.isSome →
      (∀ c ∈ calls, c.2 < t1 + 60) →
      ∀ p ∈ calls.zip (((d.record_trade tr1 t1).1).run calls).2,
        p.1.1.asset_id = tr1.asset_id → p.2 = none) := by
  constructor
  · intro d tr1 tr2 t1 t2 hasset ht hsome
    have h1 : List.lookup tr2.asset_id
        (d.record_trade tr1 t1).1.last_alert = some t1 := by
      rw [hasset, Alerts.record_trade_fire_last hsome, lookup_assocUpsert_self]
    exact (Alerts.record_trade_dedup h1 ht).1
  · intro d tr1 t1 calls hsome htimes
    have h1 : List.lookup tr1.asset_id
        (d.record_trade tr1 t1).1.last_alert = some t1 := by
      rw [Alerts.record_trade_fire_last hsome, lookup_assocUpsert_self]
    exact (Alerts.run_window calls _ h1 htimes).2

/-- Witness for C7: on the fixture detector, `bob`'s trade at second 110
fires (two distinct traders inside the window) and `carol`'s trade on the
same asset at second 150 is deduplicated. -/
theorem c7_convergence_dedup_witness :
    ((Fix.d7.record_trade Fix.tr7a 110).1.record_trade Fix.tr7b 150).2
      = none :=
  c7_convergence_dedup.1 Fix.d7 Fix.tr7a Fix.tr7b 110 150 rfl (by decide)
    (by decide)

/-! ## Claim C8 (backtest capital constraint) -/

/-- C8: the portfolio simulator's capital constraint. (i) When a scaled buy's
cost exceeds a positive cash balance, both deltas are clipped by
`cash_balance / cost` and the cash balance settles at exactly 0. (ii) When
the cash balance is already ≤ 0, the buy is skipped entirely but the asset's
`last_price` is still updated. (iii) Concretely, with `initial_capital = 100`
and one scaled buy costing 150, the buy executes at scale `100/150`
(acquiring `20/3` of the 10 tokens) and the cash balance settles at 0. -/
theorem c8_capital_constraint :
    (∀ (scales : List (String × ℚ)) (st : Routes.SimSt)
      (row : Routes.PnlDailyTraderRow) (dc dt price : ℚ),
      dc = (parseDecQ row.cash_flow_delta).getD 0
          * (List.lookup (lowerStr row.trader) scales).getD 1 →
      dt = (parseDecQ row.net_token_delta).getD 0
          * (List.lookup (lowerStr row.trader) scales).getD 1 →
      price = (parseDecQ row.last_price).getD 0 →
      dc < 0 → st.cash_balance < -dc → 0 < st.cash_balance →
      (Routes.apply_row scales st row).cash_balance = 0
      ∧ List.lookup row.asset_id (Routes.apply_row scales st row).asset_state
        = some
            (((List.lookup row.asset_id st.asset_state).getD (0, 0, 0)).1
                + dt * (st.cash_balance / -dc),
              ((List.lookup row.asset_id st.asset_state).getD (0, 0, 0)).2.1
                + dc * (st.cash_balance / -dc),
              price))
    ∧ (∀ (scales : List (String × ℚ)) (st : Routes.SimSt)
      (row : Routes.PnlDailyTraderRow) (dc price : ℚ),
      dc = (parseDecQ row.cash_flow_delta).getD 0
          * (List.lookup (lowerStr row.trader) scales).getD 1 →
      price = (parseDecQ row.last_price).getD 0 →
      dc < 0 → st.cash_balance ≤ 0 →
      (Routes.apply_row scales st row).cash_balance = st.cash_balance
      ∧ List.lookup row.asset_id (Routes.apply_row scales st row).asset_state
        = some
            (((List.lookup row.asset_id st.asset_state).getD (0, 0, 0)).1,
              ((List.lookup row.asset_id st.asset_state).getD (0, 0, 0)).2.1,
              price))
    ∧ ((Routes.simulate_portfolio [Fix.row8] [] [] [] 100).2.cash_balance = 0
      ∧ List.lookup "A"
          (Routes.simulate_portfolio [Fix.row8] [] [] [] 100).2.asset_state
        = some (20 / 3, -100, 7)) := by
  have hclip : ∀ (scales : List (String × ℚ)) (st : Routes.SimSt)
      (row : Routes.PnlDailyTraderRow),
      (parseDecQ row.cash_flow_delta).getD 0
          * (List.lookup (lowerStr row.trader) scales).getD 1 < 0 →
      st.cash_balance < -((parseDecQ row.cash_flow_delta).getD 0
          * (List.lookup (lowerStr row.trader) scales).getD 1) →
      0 < st.cash_balance →
      (Routes.apply_row scales st row).cash_balance = 0
      ∧ List.lookup row.asset_id (Routes.apply_row scales st row).asset_state
        = some
            (((List.lookup row.asset_id st.asset_state).getD (0, 0, 0)).1
                + (parseDecQ row.net_token_delta).getD 0
                  * (List.lookup (lowerStr row.trader) scales).getD 1
                  * (st.cash_balance
                    / -((parseDecQ row.cash_flow_delta).getD 0
                      * (List.lookup (lowerStr row.trader) scales).getD 1)),
              ((List.lookup row.asset_id st.asset_state).getD (0, 0, 0)).2.1
                + (parseDecQ row.cash_flow_delta).getD 0
                  * (List.lookup (lowerStr row.trader) scales).getD 1
                  * (st.cash_balance
                    / -((parseDecQ row.cash_flow_delta).getD 0
                      * (List.lookup (lowerStr row.trader) scales).getD 1)),
              (parseDecQ row.last_price).getD 0) := by
    intro scales st row h1 h2 h3
    have hne : (parseDecQ row.cash_flow_delta).getD 0
        * (List.lookup (lowerStr row.trader) scales).getD 1 ≠ 0 :=
      ne_of_lt h1
    unfold Routes.apply_row
    simp only []
    rw [if_pos ⟨h1, h2, h3⟩]
    refine ⟨?_, ?_⟩
    · show st.cash_balance
          + (parseDecQ row.cash_flow_delta).getD 0
            * (List.lookup (lowerStr row.trader) scales).getD 1
            * (st.cash_balance
              / -((parseDecQ row.cash_flow_delta).getD 0
                * (List.lookup (lowerStr row.trader) scales).getD 1)) = 0
      rw [div_neg, mul_neg, ← mul_div_assoc, mul_div_cancel_left₀ _ hne]
      ring
    · show List.lookup row.asset_id (assocUpsert row.asset_id _ st.asset_state)
          = _
      rw [lookup_assocUpsert_self]
  refine ⟨?_, ?_, ?_⟩
  · intro scales st row dc dt price hdc hdt hprice h1 h2 h3
    subst hdc
    subst hdt
    subst hprice
    exact hclip scales st row h1 h2 h3
  · intro scales st row dc price hdc hprice h1 h2
    subst hdc
    subst hprice
    unfold Routes.apply_row
    simp only []
    rw [if_neg (fun hcontra => absurd h2 (not_le.mpr hcontra.2.2)),
      if_pos ⟨h1, h2⟩]
    exact ⟨rfl, by rw [lookup_assocUpsert_self]⟩
  · have hparse : (parseDecQ Fix.row8.cash_flow_delta).getD 0 = -150 := by
      decide
    have hparset : (parseDecQ Fix.row8.net_token_delta).getD 0 = 10 := by
      decide
    have hparsep : (parseDecQ Fix.row8.last_price).getD 0 = 7 := by
      decide
    have hscale : (List.lookup (lowerStr Fix.row8.trader)
        ([] : List (String × ℚ))).getD 1 = 1 := rfl
    have hst : (Routes.simulate_portfolio [Fix.row8] [] [] [] 100).2
        = Routes.apply_row []
            { asset_state := [], cash_balance := 100, points := [],
              current_date := Fix.row8.date } Fix.row8 := by
      unfold Routes.simulate_portfolio
      simp only [List.map_nil, List.sum_nil, neg_zero, List.foldl_cons,
        List.foldl_nil, Routes.sim_step]
      have hcash : max ((100 : ℚ) - max 0 0) 0 = 100 := by norm_num
      have hdate : ¬ (("" : String) ≠ "" ∧ Fix.row8.date ≠ "") :=
        fun hcon => hcon.1 rfl
      rw [if_neg hdate]
      split
      · rw [hcash]
      · rw [hcash]
    have happ := hclip []
        { asset_state := [], cash_balance := 100, points := [],
          current_date := Fix.row8.date } Fix.row8
        (by rw [hparse, hscale]; norm_num)
        (by show (100 : ℚ) < _; rw [hparse, hscale]; norm_num)
        (by show (0 : ℚ) < 100; norm_num)
    rw [hst]
    refine ⟨happ.1, ?_⟩
    rw [show Fix.row8.asset_id = "A" from rfl] at happ
    rw [happ.2, hparse, hparset, hparsep, hscale]
    norm_num

/-- Witness for C8: the clip branch at the concrete fixture state (cash 100,
buy costing 150) and the skip branch at cash 0. -/
theorem c8_capital_constraint_witness :
    ((Routes.apply_row []
        { asset_state := [], cash_balance := 100, points := [],
          current_date := "2024-01-01" } Fix.row8).cash_balance = 0
      ∧ List.lookup Fix.row8.asset_id
          (Routes.apply_row []
            { asset_state := [], cash_balance := 100, points := [],
              current_date := "2024-01-01" } Fix.row8).asset_state
        = some
            (((List.lookup Fix.row8.asset_id
                ([] : List (String × ℚ × ℚ × ℚ))).getD (0, 0, 0)).1
                + 10 * ((100 : ℚ) / -(-150 : ℚ)),
              ((List.lookup Fix.row8.asset_id
                ([] : List (String × ℚ × ℚ × ℚ))).getD (0, 0, 0)).2.1
                + (-150 : ℚ) * ((100 : ℚ) / -(-150 : ℚ)),
              (7 : ℚ)))
    ∧ ((Routes.apply_row []
        { asset_state := [], cash_balance := 0, points := [],
          current_date := "2024-01-01" } Fix.row8).cash_balance = 0
      ∧ List.lookup Fix.row8.asset_id
          (Routes.apply_row []
            { asset_state := [], cash_balance := 0, points := [],
              current_date := "2024-01-01" } Fix.row8).asset_state
        = some
            (((List.lookup Fix.row8.asset_id
                ([] : List (String × ℚ × ℚ × ℚ))).getD (0, 0, 0)).1,
              ((List.lookup Fix.row8.asset_id
                ([] : List (String × ℚ × ℚ × ℚ))).getD (0, 0, 0)).2.1,
              (7 : ℚ))) := by
  have hparse : (parseDecQ Fix.row8.cash_flow_delta).getD 0 = -150 := by decide
  have hparset : (parseDecQ Fix.row8.net_token_delta).getD 0 = 10 := by decide
  have hparsep : (parseDecQ Fix.row8.last_price).getD 0 = 7 := by decide
  have hscale : (List.lookup (lowerStr Fix.row8.trader)
      ([] : List (String × ℚ))).getD 1 = 1 := rfl
  constructor
  · exact c8_capital_constraint.1 []
      { asset_state := [], cash_balance := 100, points := [],
        current_date := "2024-01-01" } Fix.row8 (-150) 10 7
      (by rw [hparse, hscale]; norm_num) (by rw [hparset, hscale]; norm_num)
      (by rw [hparsep]) (by norm_num) (by show (100 : ℚ) < _; norm_num)
      (by show (0 : ℚ) < 100; norm_num)
  · exact c8_capital_constraint.2.1 []
      { asset_state := [], cash_balance := 0, points := [],
        current_date := "2024-01-01" } Fix.row8 (-150) 7
      (by rw [hparse, hscale]; norm_num) (by rw [hparsep])
      (by norm_num) (by norm_num)

/-! ## Claim theorems: C1 and C3 (webhook ingress) -/

/-- C1: while `ws_active` reads true, the webhook handler broadcasts nothing
for an `OrderFilled` event — every effect it emits is a metadata side-channel
push, so no `LiveTrade` reaches the trade channel and no `WhaleTrade` alert
is sent; the WSSubscriber alone drives live fill broadcasts, and at most one
of the two sources broadcasts any individual fill. -/
theorem c1_webhook_defers_to_ws :
    ∀ (ev : Alerts.WebhookEvent) (cache : Markets.Cache) (is_live : Bool)
      (body : Option (List Alerts.GammaRec)),
      ∀ e ∈ Alerts.process_event "OrderFilled" ev cache true is_live body,
        ∃ a i, e = Alerts.Effect.metadata a i := by
  intro ev cache is_live body e he
  cases is_live with
  | false => simp [Alerts.process_event, Alerts.enrich_alert] at he
  | true =>
    rcases hb : Alerts.build_live_trade ev cache with _ | lt
    · simp [Alerts.process_event, Alerts.enrich_alert, hb] at he
    · rcases hl : List.lookup lt.cache_key cache with _ | info
      · simp [Alerts.process_event, Alerts.enrich_alert, hb, hl] at he
      · simp [Alerts.process_event, Alerts.enrich_alert, hb, hl] at he
        exact ⟨_, _, he⟩

/-- Witness for C1 at the concrete fixture fill. -/
theorem c1_webhook_defers_to_ws_witness :
    ∃ a i, Alerts.Effect.metadata Fix.c3lt.asset_id Fix.c3info
      = Alerts.Effect.metadata a i :=
  c1_webhook_defers_to_ws Fix.c3ev Fix.c3cache true none
    (Alerts.Effect.metadata Fix.c3lt.asset_id Fix.c3info) (by decide)

/-- C3 counterexample: the fixture fill is a fully well-formed `OrderFilled`
event that enriches (and broadcasts) when its timestamp is within 300 s of
the wall clock, but once stale it produces no effects at all — in particular
no enrichment record, contrary to the claim's "regardless of whether the
event is live or stale". -/
theorem c3_counterexample :
    Alerts.process_webhook_event "OrderFilled" Fix.c3ev Fix.c3cache false
        2000000000 none = []
    ∧ Alerts.Effect.metadata Fix.c3lt.asset_id Fix.c3info ∈
        Alerts.process_webhook_event "OrderFilled" Fix.c3ev Fix.c3cache false
          1000000100 none := by
  decide

/-- C3 (amended): a live `OrderFilled` event that parses to a `LiveTrade`
whose cache key hits the market cache pushes an enrichment record to the
metadata side-channel regardless of `ws_active`; a stale event (300 s or
older) generates no broadcasts — and, contrary to the claim, no enrichment
record either: its processing has no effects at all. -/
theorem c3_enrichment_gating :
    (∀ (ev : Alerts.WebhookEvent) (cache : Markets.Cache) (ws_active : Bool)
      (now : Int) (body : Option (List Alerts.GammaRec))
      (lt : Alerts.LiveTrade) (info : Markets.MarketInfo),
      Alerts.is_event_live ev now = true →
      Alerts.build_live_trade ev cache = some lt →
      List.lookup lt.cache_key cache = some info →
      Alerts.Effect.metadata lt.asset_id info ∈
        Alerts.process_webhook_event "OrderFilled" ev cache ws_active now body)
    ∧ (∀ (ev : Alerts.WebhookEvent) (cache : Markets.Cache) (ws_active : Bool)
      (now : Int) (body : Option (List Alerts.GammaRec)),
      Alerts.is_event_live ev now = false →
      Alerts.process_webhook_event "OrderFilled" ev cache ws_active now body
        = []) := by
  constructor
  · intro ev cache ws_active now body lt info hlive hb hl
    unfold Alerts.process_webhook_event
    rw [hlive]
    cases ws_active with
    | true => simp [Alerts.process_event, Alerts.enrich_alert, hb, hl]
    | false =>
      rcases hpo : Alerts.parse_order_filled ev cache with _ | al
      · simp [Alerts.process_event, Alerts.enrich_alert, hb, hl, hpo]
      · rcases henr : Alerts.enrich_alert (some al) body with _ | a2 <;>
          simp [Alerts.process_event, hb, hl, hpo, henr]
  · intro ev cache ws_active now body hlive
    unfold Alerts.process_webhook_event
    rw [hlive]
    cases ws_active with
    | true => simp [Alerts.process_event, Alerts.enrich_alert]
    | false =>
      rcases hpo : Alerts.parse_order_filled ev cache with _ | al
      · simp [Alerts.process_event, Alerts.enrich_alert, hpo]
      · rcases henr : Alerts.enrich_alert (some al) body with _ | a2 <;>
          simp [Alerts.process_event, hpo, henr]

/-- Witness for C3: the fixture fill at a live wall clock, with
`ws_active = true`, still pushes its enrichment record. -/
theorem c3_enrichment_gating_witness :
    Alerts.Effect.metadata Fix.c3lt.asset_id Fix.c3info ∈
      Alerts.process_webhook_event "OrderFilled" Fix.c3ev Fix.c3cache true
        1000000100 none :=
  c3_enrichment_gating.1 Fix.c3ev Fix.c3cache true 1000000100 none Fix.c3lt
    Fix.c3info (by decide) (by decide) (by decide)

/-- Witness for C9: idempotence and digit-shape at the concrete input
`12345.5e7`, plus idempotence at the all-digit 20-character input. -/
theorem c9_digest_wellformed_witness :
    Markets.cache_key (Markets.cache_key
        ("12345".toList ++ ('.' :: "5".toList) ++ ('e' :: "7".toList)))
      = Markets.cache_key
          ("12345".toList ++ ('.' :: "5".toList) ++ ('e' :: "7".toList))
    ∧ (Markets.cache_key
        ("12345".toList ++ ('.' :: "5".toList) ++ ('e' :: "7".toList))).all
          Char.isDigit := by
  have h := c9_digest_wellformed.2 "12345".toList ('.' :: "5".toList)
    ('e' :: "7".toList) (by decide)
    (Or.inr ⟨"5".toList, by decide, rfl⟩)
    (Or.inr ⟨'e', "7".toList, Or.inl rfl, by decide, rfl⟩)
  exact ⟨h.1, h.2 (Or.inl (by decide))⟩

end Polyderboard
